import Mathlib

/-!
# Warehouse MVP — stock-ledger core, shallow embedding

Embedding of `inventory/models.py` and `inventory/serializers.py`:

* `Product`, `StockTransaction`, `StockTransactionDetail` mirror the three
  Django models.  A product row's mutable `current_stock` column is kept in
  the store (`LedgerState.current_stock`, keyed by product pk) rather than in
  the `Product` record, since every operation reads and writes it through the
  database; `part_no` is immutable and travels with the record.
* `StockTransactionDetail.save` embeds the overridden `save` method
  (models.py lines 71-101): `full_clean` (the `clean` quantity check plus
  Django's `validate_unique` for the `unique_together ('transaction',
  'product')` constraint), then, inside one atomic block, the reversal of the
  stored old row's effect when the instance already has a pk, the application
  of the new effect with the insufficient-stock guard on OUT, and the upsert
  of the detail row.  The atomic block is embedded by returning
  `Except LedgerError LedgerState`: an `.error` result commits nothing.
* `StockTransactionDetail.delete` embeds the overridden `delete` method
  (models.py lines 103-114): unconditional reversal, then row removal.
* `StockTransactionSerializer.create` embeds serializers.py lines 41-65:
  empty-lines check before the atomic block, then header creation and one
  `save` per line in the order supplied, the whole block rolling back on any
  failure.
* `LedgerOp` / `stepOp` / `runOps` run arbitrary sequences of the three
  caller-visible operations; `committed` realizes "rolled back on error".
-/

/-- Transaction direction, the `TRANSACTION_TYPES` choices `'IN'`/`'OUT'`. -/
inductive TransactionType where
  | IN
  | OUT
deriving DecidableEq, Repr

/-- A `Product` row's immutable identity (models.py `Product`): primary key
and unique `part_no`.  The mutable `current_stock` column lives in
`LedgerState.current_stock`. -/
structure Product where
  pk : Nat
  part_no : String
deriving DecidableEq, Repr

/-- A `StockTransaction` header row (models.py `StockTransaction`): primary
key and `transaction_type`.  `transaction_code`, `date` and `notes` play no
role in the ledger logic. -/
structure StockTransaction where
  pk : Nat
  transaction_type : TransactionType
deriving DecidableEq, Repr

/-- A `StockTransactionDetail` row (models.py `StockTransactionDetail`): a
line item holding its owning transaction, its product and a quantity.  The
quantity is an `Int` so that the `clean` validation `quantity <= 0` is
represented rather than assumed. -/
structure StockTransactionDetail where
  pk : Nat
  transaction : StockTransaction
  product : Product
  quantity : Int
deriving DecidableEq, Repr

/-- The persistent store: the `current_stock` column of every product row
(keyed by product pk), the persisted detail rows, and the persisted
transaction headers. -/
structure LedgerState where
  current_stock : Nat → Int
  details : List StockTransactionDetail
  txs : List StockTransaction

/-- The error taxonomy surfaced by the core (spec section 7), each carrying
the context the source puts in its message.  `insufficientStock` carries the
part number, the available stock and the required quantity, exactly the data
interpolated into the `ValidationError` message at models.py line 97. -/
inductive LedgerError where
  | invalidQuantity
  | duplicateLineProduct (txPk productPk : Nat)
  | insufficientStock (part_no : String) (available : Int) (required : Int)
  | emptyTransaction
deriving DecidableEq, Repr

/-- Write `delta` onto one product's `current_stock` column
(`product.current_stock ± q` followed by `product.save()`). -/
def adjustStock (s : LedgerState) (productPk : Nat) (delta : Int) : LedgerState :=
  { s with current_stock := fun p =>
      if p = productPk then s.current_stock p + delta else s.current_stock p }

/-- The signed stock delta a detail line applies when saved: `+quantity` for
IN, `-quantity` for OUT (models.py lines 92-98). -/
def applyDelta (d : StockTransactionDetail) : Int :=
  match d.transaction.transaction_type with
  | .IN => d.quantity
  | .OUT => -d.quantity

/-- The reversal delta used for an already-stored row on edit or delete:
`-quantity` for IN, `+quantity` for OUT (models.py lines 85-88, 109-112). -/
def revertDelta (d : StockTransactionDetail) : Int :=
  match d.transaction.transaction_type with
  | .IN => -d.quantity
  | .OUT => d.quantity

/-- Django's `validate_unique` check for `unique_together ('transaction',
'product')`, run by `full_clean`: some other stored row (different pk) has
the same owning transaction and the same product. -/
def violatesUnique (s : LedgerState) (d : StockTransactionDetail) : Bool :=
  s.details.any fun e =>
    e.pk != d.pk && e.transaction.pk == d.transaction.pk && e.product.pk == d.product.pk

/-- The stored row with the instance's pk, if any (`self.pk` set and
`StockTransactionDetail.objects.get(pk=self.pk)` at models.py line 84). -/
def findOld (s : LedgerState) (d : StockTransactionDetail) : Option StockTransactionDetail :=
  s.details.find? fun e => e.pk == d.pk

/-- Persist the detail row itself (`super().save()` at models.py line 101):
update in place when the pk is already stored, append otherwise. -/
def upsertDetail (ds : List StockTransactionDetail) (d : StockTransactionDetail) :
    List StockTransactionDetail :=
  if ds.any (fun e => e.pk == d.pk) then
    ds.map fun e => if e.pk == d.pk then d else e
  else
    ds ++ [d]

/-- The reversal step of `save` (models.py lines 83-89): when the instance
already has a stored row, undo that row's stock effect on that row's
product; otherwise do nothing. -/
def revertIfStored (s : LedgerState) (d : StockTransactionDetail) : LedgerState :=
  match findOld s d with
  | some old => adjustStock s old.product.pk (revertDelta old)
  | none => s

/-- The application step of `save` (models.py lines 92-101): apply the new
line's delta to its product — for OUT only after the sufficiency guard —
then persist the product and upsert the detail row. -/
def applyNew (s1 : LedgerState) (d : StockTransactionDetail) :
    Except LedgerError LedgerState :=
  match d.transaction.transaction_type with
  | .IN =>
      let s2 := adjustStock s1 d.product.pk d.quantity
      .ok { s2 with details := upsertDetail s2.details d }
  | .OUT =>
      if s1.current_stock d.product.pk < d.quantity then
        .error (.insufficientStock d.product.part_no
          (s1.current_stock d.product.pk) d.quantity)
      else
        let s2 := adjustStock s1 d.product.pk (-d.quantity)
        .ok { s2 with details := upsertDetail s2.details d }

/-- `StockTransactionDetail.save` (models.py lines 71-101).

1. `full_clean`: reject `quantity <= 0` (`clean`, lines 63-69) and a
   `unique_together` violation (`validate_unique`).
2. Inside `db_transaction.atomic()`: `revertIfStored` (lines 83-89) then
   `applyNew` (lines 92-101).

An `.error` result is the `ValidationError` escaping the atomic block:
nothing is committed. -/
def StockTransactionDetail.save (s : LedgerState) (d : StockTransactionDetail) :
    Except LedgerError LedgerState :=
  if d.quantity ≤ 0 then
    .error .invalidQuantity
  else if violatesUnique s d then
    .error (.duplicateLineProduct d.transaction.pk d.product.pk)
  else
    applyNew (revertIfStored s d) d

/-- `StockTransactionDetail.delete` (models.py lines 103-114): inside one
atomic block, unconditionally apply the reversal of the line's effect to its
product — no sufficiency or non-negativity check — then remove the row. -/
def StockTransactionDetail.delete (s : LedgerState) (d : StockTransactionDetail) :
    LedgerState :=
  let s1 := adjustStock s d.product.pk (revertDelta d)
  { s1 with details := s1.details.filter fun e => e.pk != d.pk }

/-- One line-input of a transaction submission (nested `details` payload of
`StockTransactionSerializer`): a product reference and a quantity. -/
structure LineInput where
  product : Product
  quantity : Int
deriving DecidableEq, Repr

/-- The detail rows a submission creates, in the order supplied, with
consecutive fresh pks starting at `basePk`. -/
def linesToDetails (tx : StockTransaction) (basePk : Nat) :
    List LineInput → List StockTransactionDetail
  | [] => []
  | l :: ls => ⟨basePk, tx, l.product, l.quantity⟩ :: linesToDetails tx (basePk + 1) ls

/-- The loop body of `StockTransactionSerializer.create` (serializers.py
lines 57-59): one `StockTransactionDetail.objects.create` — hence one
`save` — per line, in the order supplied, each new row receiving the next
fresh pk. -/
def applyLines (s : LedgerState) (tx : StockTransaction) (basePk : Nat) :
    List LineInput → Except LedgerError LedgerState
  | [] => .ok s
  | l :: ls =>
      match StockTransactionDetail.save s ⟨basePk, tx, l.product, l.quantity⟩ with
      | .ok s' => applyLines s' tx (basePk + 1) ls
      | .error e => .error e

/-- `StockTransactionSerializer.create` (serializers.py lines 41-65): reject
an empty `details` list before any persistence, then inside one
`transaction.atomic()` block create the header and save each detail line in
the order supplied.  Any line failure escapes the block, so an `.error`
result commits neither the header nor any line nor any stock change. -/
def StockTransactionSerializer.create (s : LedgerState) (tx : StockTransaction)
    (basePk : Nat) (lines : List LineInput) : Except LedgerError LedgerState :=
  if lines.isEmpty then
    .error .emptyTransaction
  else
    applyLines { s with txs := s.txs ++ [tx] } tx basePk lines

/-- The state a fallible operation leaves behind: the new state on success,
the unchanged input state when the atomic block rolled back. -/
def committed (s : LedgerState) (r : Except LedgerError LedgerState) : LedgerState :=
  match r with
  | .ok s' => s'
  | .error _ => s

/-- The caller-visible operations of the ledger core.  `applyLine` is a
`save` of an in-memory instance (a fresh insert or, when its pk is stored, a
replace); `removeLine` deletes the stored row with the given pk (a fetched
instance); `createTx` is the serializer's composite create. -/
inductive LedgerOp where
  | applyLine (d : StockTransactionDetail)
  | removeLine (pk : Nat)
  | createTx (tx : StockTransaction) (basePk : Nat) (lines : List LineInput)

/-- Run one operation against the store; a failed operation leaves the store
unchanged (its atomic block rolls back). -/
def stepOp (s : LedgerState) : LedgerOp → LedgerState
  | .applyLine d => committed s (StockTransactionDetail.save s d)
  | .removeLine pk =>
      match s.details.find? (fun e => e.pk == pk) with
      | some d => StockTransactionDetail.delete s d
      | none => s
  | .createTx tx basePk lines =>
      committed s (StockTransactionSerializer.create s tx basePk lines)

/-- Run a sequence of operations. -/
def runOps (s : LedgerState) : List LedgerOp → LedgerState
  | [] => s
  | op :: ops => runOps (stepOp s op) ops

/-- The empty store: every product's `current_stock` at its default 0, no
rows. -/
def initState : LedgerState :=
  ⟨fun _ => 0, [], []⟩

/-- The signed contribution of one stored detail line to one product's
ledger sum: `+quantity` when an IN line references the product, `-quantity`
when an OUT line does, 0 otherwise. -/
def contrib (p : Nat) (d : StockTransactionDetail) : Int :=
  if d.product.pk = p then applyDelta d else 0

/-- The ledger sum for a product: IN quantities minus OUT quantities over
the stored detail lines referencing it. -/
def netSum (ds : List StockTransactionDetail) (p : Nat) : Int :=
  (ds.map (contrib p)).sum

/-! ## Basic facts about the store primitives -/

theorem adjustStock_current_stock (s : LedgerState) (q : Nat) (delta : Int) (p : Nat) :
    (adjustStock s q delta).current_stock p
      = s.current_stock p + (if p = q then delta else 0) := by
  simp only [adjustStock]
  split <;> simp

theorem adjustStock_details (s : LedgerState) (q : Nat) (delta : Int) :
    (adjustStock s q delta).details = s.details := rfl

theorem adjustStock_txs (s : LedgerState) (q : Nat) (delta : Int) :
    (adjustStock s q delta).txs = s.txs := rfl

theorem revertDelta_eq_neg_applyDelta (d : StockTransactionDetail) :
    revertDelta d = -applyDelta d := by
  cases h : d.transaction.transaction_type <;> simp [revertDelta, applyDelta, h]

theorem netSum_nil (p : Nat) : netSum [] p = 0 := rfl

theorem netSum_cons (d : StockTransactionDetail) (ds : List StockTransactionDetail) (p : Nat) :
    netSum (d :: ds) p = contrib p d + netSum ds p := by
  simp [netSum]

theorem netSum_append (as bs : List StockTransactionDetail) (p : Nat) :
    netSum (as ++ bs) p = netSum as p + netSum bs p := by
  simp [netSum]

theorem violatesUnique_false_iff (s : LedgerState) (d : StockTransactionDetail) :
    violatesUnique s d = false ↔
      ∀ e ∈ s.details, e.transaction.pk = d.transaction.pk →
        e.product.pk = d.product.pk → e.pk = d.pk := by
  unfold violatesUnique
  rw [← Bool.not_eq_true, List.any_eq_true]
  push_neg
  constructor
  · intro h e he htx hprod
    by_contra hpk
    exact h e he (by simp [bne_iff_ne, hpk, htx, hprod])
  · intro h e he hb
    simp only [Bool.and_eq_true, bne_iff_ne, beq_iff_eq] at hb
    exact hb.1.1 (h e he hb.1.2 hb.2)

theorem findOld_none_iff (s : LedgerState) (d : StockTransactionDetail) :
    findOld s d = none ↔ ∀ e ∈ s.details, e.pk ≠ d.pk := by
  simp [findOld, List.find?_eq_none]

/-! ## Characterization of `StockTransactionDetail.save` -/

/-- The state `applyNew` commits on success: the line's delta on its
product's stock column, plus the upserted detail row. -/
def mkApplied (s1 : LedgerState) (d : StockTransactionDetail) : LedgerState :=
  { adjustStock s1 d.product.pk (applyDelta d) with
    details := upsertDetail s1.details d }

theorem applyNew_of_IN (s1 : LedgerState) (d : StockTransactionDetail)
    (h : d.transaction.transaction_type = .IN) :
    applyNew s1 d = .ok (mkApplied s1 d) := by
  unfold applyNew mkApplied applyDelta
  rw [h]
  rfl

theorem applyNew_of_OUT_ok (s1 : LedgerState) (d : StockTransactionDetail)
    (h : d.transaction.transaction_type = .OUT)
    (hs : ¬ s1.current_stock d.product.pk < d.quantity) :
    applyNew s1 d = .ok (mkApplied s1 d) := by
  unfold applyNew mkApplied applyDelta
  rw [h]
  simp only [if_neg hs]
  rfl

theorem applyNew_of_OUT_err (s1 : LedgerState) (d : StockTransactionDetail)
    (h : d.transaction.transaction_type = .OUT)
    (hs : s1.current_stock d.product.pk < d.quantity) :
    applyNew s1 d = .error (.insufficientStock d.product.part_no
      (s1.current_stock d.product.pk) d.quantity) := by
  unfold applyNew
  rw [h]
  simp only [if_pos hs]

theorem applyNew_ok_cases (s1 : LedgerState) (d : StockTransactionDetail)
    (s2 : LedgerState) (hok : applyNew s1 d = .ok s2) : s2 = mkApplied s1 d := by
  cases h : d.transaction.transaction_type with
  | IN =>
      rw [applyNew_of_IN s1 d h] at hok
      exact (Except.ok.injEq _ _ ▸ hok).symm
  | OUT =>
      by_cases hs : s1.current_stock d.product.pk < d.quantity
      · rw [applyNew_of_OUT_err s1 d h hs] at hok
        exact absurd hok (by simp)
      · rw [applyNew_of_OUT_ok s1 d h hs] at hok
        exact (Except.ok.injEq _ _ ▸ hok).symm

theorem revertIfStored_of_none (s : LedgerState) (d : StockTransactionDetail)
    (h : findOld s d = none) : revertIfStored s d = s := by
  unfold revertIfStored
  rw [h]

theorem revertIfStored_of_some (s : LedgerState) (d old : StockTransactionDetail)
    (h : findOld s d = some old) :
    revertIfStored s d = adjustStock s old.product.pk (revertDelta old) := by
  unfold revertIfStored
  rw [h]

theorem save_pos_qty (s : LedgerState) (d : StockTransactionDetail) (s' : LedgerState)
    (hok : StockTransactionDetail.save s d = .ok s') : 0 < d.quantity := by
  unfold StockTransactionDetail.save at hok
  split at hok
  · exact absurd hok (by simp)
  · omega

theorem save_clean (s : LedgerState) (d : StockTransactionDetail) (s' : LedgerState)
    (hok : StockTransactionDetail.save s d = .ok s') : violatesUnique s d = false := by
  unfold StockTransactionDetail.save at hok
  split at hok
  · exact absurd hok (by simp)
  · split at hok
    · exact absurd hok (by simp)
    · next hv => simpa using hv

theorem findOld_some_facts (s : LedgerState) (d old : StockTransactionDetail)
    (h : findOld s d = some old) : old ∈ s.details ∧ old.pk = d.pk := by
  unfold findOld at h
  exact ⟨List.mem_of_find?_eq_some h, by simpa using List.find?_some h⟩

theorem save_ok_applyNew (s : LedgerState) (d : StockTransactionDetail) (s' : LedgerState)
    (hok : StockTransactionDetail.save s d = .ok s') :
    s' = mkApplied (revertIfStored s d) d := by
  unfold StockTransactionDetail.save at hok
  split at hok
  · exact absurd hok (by simp)
  · split at hok
    · exact absurd hok (by simp)
    · exact applyNew_ok_cases _ d s' hok

/-- A successful save of an instance whose pk is not yet stored (Apply-line):
the detail row is appended, headers are untouched, the quantity passed the
`clean` check, and exactly the line's delta lands on its product's stock. -/
theorem save_ok_insert (s : LedgerState) (d : StockTransactionDetail) (s' : LedgerState)
    (hfresh : findOld s d = none)
    (hok : StockTransactionDetail.save s d = .ok s') :
    s'.details = s.details ++ [d] ∧ s'.txs = s.txs ∧ 0 < d.quantity ∧
      ∀ p, s'.current_stock p
        = s.current_stock p + (if p = d.product.pk then applyDelta d else 0) := by
  have hs' := save_ok_applyNew s d s' hok
  rw [revertIfStored_of_none s d hfresh] at hs'
  subst hs'
  have hany : s.details.any (fun e => e.pk == d.pk) = false := by
    rw [← Bool.not_eq_true, List.any_eq_true]
    push_neg
    intro e he
    simpa using (findOld_none_iff s d).mp hfresh e he
  refine ⟨?_, rfl, save_pos_qty s d _ hok, ?_⟩
  · simp [mkApplied, upsertDetail, hany]
  · intro p
    exact adjustStock_current_stock s d.product.pk (applyDelta d) p

/-- A successful save of an instance whose pk is stored (Replace-line): the
stored row is replaced in place, headers are untouched, and the stock column
receives the old row's reversal on the old product followed by the new
line's delta on the new product. -/
theorem save_ok_replace (s : LedgerState) (d old : StockTransactionDetail) (s' : LedgerState)
    (hfind : findOld s d = some old)
    (hok : StockTransactionDetail.save s d = .ok s') :
    s'.details = s.details.map (fun e => if e.pk == d.pk then d else e) ∧
      s'.txs = s.txs ∧ 0 < d.quantity ∧
      ∀ p, s'.current_stock p
        = s.current_stock p + (if p = old.product.pk then revertDelta old else 0)
            + (if p = d.product.pk then applyDelta d else 0) := by
  have hs' := save_ok_applyNew s d s' hok
  rw [revertIfStored_of_some s d old hfind] at hs'
  subst hs'
  have hof := findOld_some_facts s d old hfind
  have hany : s.details.any (fun e => e.pk == d.pk) = true := by
    rw [List.any_eq_true]
    exact ⟨old, hof.1, by simp [hof.2]⟩
  refine ⟨?_, rfl, save_pos_qty s d _ hok, ?_⟩
  · simp [mkApplied, upsertDetail, adjustStock_details, hany]
  · intro p
    rw [mkApplied]
    show (adjustStock (adjustStock s old.product.pk (revertDelta old))
        d.product.pk (applyDelta d)).current_stock p = _
    rw [adjustStock_current_stock, adjustStock_current_stock]

/-! ## Characterization of `StockTransactionDetail.delete` -/

theorem delete_current_stock (s : LedgerState) (d : StockTransactionDetail) (p : Nat) :
    (StockTransactionDetail.delete s d).current_stock p
      = s.current_stock p + (if p = d.product.pk then revertDelta d else 0) := by
  unfold StockTransactionDetail.delete
  exact adjustStock_current_stock s d.product.pk (revertDelta d) p

theorem delete_details (s : LedgerState) (d : StockTransactionDetail) :
    (StockTransactionDetail.delete s d).details
      = s.details.filter fun e => e.pk != d.pk := rfl

theorem delete_txs (s : LedgerState) (d : StockTransactionDetail) :
    (StockTransactionDetail.delete s d).txs = s.txs := rfl

/-! ## The ledger sum under row updates -/

/-- Primary keys of the stored detail rows are pairwise distinct, the
database's primary-key guarantee. -/
def PkNodup (ds : List StockTransactionDetail) : Prop :=
  (ds.map fun e => e.pk).Nodup

theorem contrib_eq (p : Nat) (d : StockTransactionDetail) :
    contrib p d = if p = d.product.pk then applyDelta d else 0 := by
  unfold contrib
  by_cases h : d.product.pk = p
  · subst h
    simp
  · rw [if_neg h, if_neg (fun hh => h hh.symm)]

/-- Replacing the stored row that carries a pk (pks distinct) shifts the
ledger sum by the difference of the two rows' contributions. -/
theorem netSum_map_replace (ds : List StockTransactionDetail)
    (d old : StockTransactionDetail)
    (hfind : ds.find? (fun e => e.pk == d.pk) = some old)
    (hnd : (ds.map fun e => e.pk).Nodup) (p : Nat) :
    netSum (ds.map fun e => if e.pk == d.pk then d else e) p
      = netSum ds p - contrib p old + contrib p d := by
  induction ds with
  | nil => simp at hfind
  | cons a ds ih =>
    rw [List.map_cons, List.nodup_cons] at hnd
    by_cases h : (a.pk == d.pk) = true
    · simp only [List.find?_cons, h, Option.some.injEq] at hfind
      subst hfind
      have hmap : ds.map (fun e => if e.pk == d.pk then d else e) = ds := by
        refine (List.map_congr_left ?_).trans (List.map_id ds)
        intro e he
        have hne : e.pk ≠ a.pk := fun hc => hnd.1 (hc ▸ List.mem_map_of_mem (fun x => x.pk) he)
        rw [beq_iff_eq] at h
        rw [if_neg (by simp [h ▸ hne])]
        rfl
      simp only [List.map_cons, if_pos h, hmap, netSum_cons]
      omega
    · have hfalse : (a.pk == d.pk) = false := by simpa using h
      simp only [List.find?_cons, hfalse] at hfind
      simp only [List.map_cons, if_neg h, netSum_cons, ih hfind hnd.2]
      omega

/-- Filtering out the row that carries a pk (pks distinct) removes exactly
its contribution from the ledger sum. -/
theorem netSum_filter_remove (ds : List StockTransactionDetail)
    (d0 : StockTransactionDetail) (k : Nat)
    (hfind : ds.find? (fun e => e.pk == k) = some d0)
    (hnd : (ds.map fun e => e.pk).Nodup) (p : Nat) :
    netSum (ds.filter fun e => e.pk != k) p = netSum ds p - contrib p d0 := by
  induction ds with
  | nil => simp at hfind
  | cons a ds ih =>
    rw [List.map_cons, List.nodup_cons] at hnd
    by_cases h : (a.pk == k) = true
    · simp only [List.find?_cons, h, Option.some.injEq] at hfind
      subst hfind
      have hfilter : ds.filter (fun e => e.pk != k) = ds := by
        refine List.filter_eq_self.mpr ?_
        intro e he
        have hne : e.pk ≠ a.pk := fun hc => hnd.1 (hc ▸ List.mem_map_of_mem (fun x => x.pk) he)
        rw [beq_iff_eq] at h
        simp [bne_iff_ne, h ▸ hne]
      simp only [List.filter_cons, show ((a.pk != k) = false) by simpa using h,
        Bool.false_eq_true, if_false, hfilter, netSum_cons]
      omega
    · have hfalse : (a.pk == k) = false := by simpa using h
      simp only [List.find?_cons, hfalse] at hfind
      simp only [List.filter_cons, show ((a.pk != k) = true) by simpa using h, if_true,
        netSum_cons, ih hfind hnd.2]
      omega

/-! ## The ledger invariant -/

/-- The ledger invariant over the store: detail pks are distinct (primary
keys) and every product's `current_stock` column equals its ledger sum. -/
def LedgerInv (s : LedgerState) : Prop :=
  PkNodup s.details ∧ ∀ p, s.current_stock p = netSum s.details p

theorem save_inv (s : LedgerState) (d : StockTransactionDetail) (s' : LedgerState)
    (hok : StockTransactionDetail.save s d = .ok s') (hinv : LedgerInv s) :
    LedgerInv s' := by
  cases hf : findOld s d with
  | none =>
      obtain ⟨hdet, -, -, hstock⟩ := save_ok_insert s d s' hf hok
      constructor
      · unfold PkNodup
        rw [hdet, List.map_append, List.nodup_append]
        refine ⟨hinv.1, by simp, ?_⟩
        intro x hx hx2
        obtain ⟨e, he, rfl⟩ := List.mem_map.mp hx
        simp only [List.map_cons, List.map_nil, List.mem_singleton] at hx2
        exact (findOld_none_iff s d).mp hf e he hx2
      · intro p
        rw [hstock p, hinv.2 p, hdet, netSum_append,
          show netSum [d] p = contrib p d by simp [netSum, contrib],
          contrib_eq]
  | some old =>
      obtain ⟨hdet, -, -, hstock⟩ := save_ok_replace s d old s' hf hok
      have hfind : s.details.find? (fun e => e.pk == d.pk) = some old := hf
      constructor
      · unfold PkNodup
        rw [hdet, List.map_map]
        have : ((fun e : StockTransactionDetail => e.pk) ∘
            fun e => if e.pk == d.pk then d else e)
            = fun e : StockTransactionDetail => e.pk := by
          funext e
          by_cases hh : (e.pk == d.pk) = true
          · rw [beq_iff_eq] at hh
            simp [Function.comp, hh]
          · simp [Function.comp, hh]
        rw [this]
        exact hinv.1
      · intro p
        rw [hstock p, hinv.2 p, hdet,
          netSum_map_replace s.details d old hfind hinv.1 p,
          show (if p = old.product.pk then revertDelta old else 0) = -(contrib p old) by
            rw [contrib_eq, revertDelta_eq_neg_applyDelta]
            split <;> simp,
          ← contrib_eq]
        omega

theorem delete_inv (s : LedgerState) (d0 : StockTransactionDetail)
    (hfind : s.details.find? (fun e => e.pk == d0.pk) = some d0)
    (hinv : LedgerInv s) : LedgerInv (StockTransactionDetail.delete s d0) := by
  constructor
  · unfold PkNodup
    rw [delete_details]
    have h1 : (s.details.map fun e => e.pk).Nodup := hinv.1
    exact (((List.filter_sublist s.details).map fun e => e.pk).nodup h1 :)
  · intro p
    rw [delete_current_stock, delete_details, hinv.2 p,
      netSum_filter_remove s.details d0 d0.pk hfind hinv.1 p,
      show (if p = d0.product.pk then revertDelta d0 else 0) = -(contrib p d0) by
        rw [contrib_eq, revertDelta_eq_neg_applyDelta]
        split <;> simp]
    omega

theorem applyLines_inv (tx : StockTransaction) (lines : List LineInput) :
    ∀ s basePk s', applyLines s tx basePk lines = .ok s' → LedgerInv s → LedgerInv s' := by
  induction lines with
  | nil =>
      intro s basePk s' hok hinv
      simp only [applyLines, Except.ok.injEq] at hok
      exact hok ▸ hinv
  | cons l ls ih =>
      intro s basePk s' hok hinv
      simp only [applyLines] at hok
      cases hsave : StockTransactionDetail.save s ⟨basePk, tx, l.product, l.quantity⟩ with
      | ok s1 =>
          rw [hsave] at hok
          exact ih s1 (basePk + 1) s' hok (save_inv s _ s1 hsave hinv)
      | error e =>
          rw [hsave] at hok
          exact absurd hok (by simp)

theorem ledgerInv_set_txs (s : LedgerState) (ts : List StockTransaction)
    (hinv : LedgerInv s) : LedgerInv { s with txs := ts } := hinv

theorem create_inv (s : LedgerState) (tx : StockTransaction) (basePk : Nat)
    (lines : List LineInput) (s' : LedgerState)
    (hok : StockTransactionSerializer.create s tx basePk lines = .ok s')
    (hinv : LedgerInv s) : LedgerInv s' := by
  unfold StockTransactionSerializer.create at hok
  split at hok
  · exact absurd hok (by simp)
  · exact applyLines_inv tx lines _ basePk s' hok (ledgerInv_set_txs s _ hinv)

theorem stepOp_inv (s : LedgerState) (op : LedgerOp) (hinv : LedgerInv s) :
    LedgerInv (stepOp s op) := by
  cases op with
  | applyLine d =>
      show LedgerInv (committed s (StockTransactionDetail.save s d))
      cases hsave : StockTransactionDetail.save s d with
      | ok s1 => exact save_inv s d s1 hsave hinv
      | error e => exact hinv
  | removeLine k =>
      show LedgerInv (match s.details.find? (fun e => e.pk == k) with
        | some d0 => StockTransactionDetail.delete s d0
        | none => s)
      cases hfind : s.details.find? (fun e => e.pk == k) with
      | some d0 =>
          have hpk : d0.pk = k := by simpa using List.find?_some hfind
          exact delete_inv s d0 (hpk ▸ hfind) hinv
      | none => exact hinv
  | createTx tx basePk lines =>
      show LedgerInv (committed s (StockTransactionSerializer.create s tx basePk lines))
      cases hc : StockTransactionSerializer.create s tx basePk lines with
      | ok s1 => exact create_inv s tx basePk lines s1 hc hinv
      | error e => exact hinv

theorem runOps_inv (s : LedgerState) (ops : List LedgerOp) (hinv : LedgerInv s) :
    LedgerInv (runOps s ops) := by
  induction ops generalizing s with
  | nil => exact hinv
  | cons op ops ih => exact ih (stepOp s op) (stepOp_inv s op hinv)

theorem initState_inv : LedgerInv initState :=
  ⟨List.nodup_nil, fun _ => rfl⟩

/-! ## Structural facts shared by the remaining claims -/

theorem revertIfStored_details (s : LedgerState) (d : StockTransactionDetail) :
    (revertIfStored s d).details = s.details := by
  unfold revertIfStored
  cases h : findOld s d with
  | some old => rfl
  | none => rfl

theorem mem_upsertDetail (ds : List StockTransactionDetail)
    (d e : StockTransactionDetail) (he : e ∈ upsertDetail ds d) : e = d ∨ e ∈ ds := by
  unfold upsertDetail at he
  split at he
  · obtain ⟨a, ha, rfl⟩ := List.mem_map.mp he
    by_cases h : (a.pk == d.pk) = true
    · left
      rw [if_pos h]
    · right
      rw [if_neg h]
      exact ha
  · rcases List.mem_append.mp he with h | h
    · right
      exact h
    · left
      simpa using h

theorem save_ok_details_mem (s : LedgerState) (d : StockTransactionDetail)
    (s' : LedgerState) (hok : StockTransactionDetail.save s d = .ok s')
    (e : StockTransactionDetail) (he : e ∈ s'.details) : e = d ∨ e ∈ s.details := by
  have hs' := save_ok_applyNew s d s' hok
  subst hs'
  have : e ∈ upsertDetail s.details d := by
    have hh := he
    rw [show (mkApplied (revertIfStored s d) d).details
        = upsertDetail (revertIfStored s d).details d from rfl,
      revertIfStored_details] at hh
    exact hh
  exact mem_upsertDetail s.details d e this

/-- Every persisted detail line has strictly positive quantity. -/
def allPosQty (ds : List StockTransactionDetail) : Prop :=
  ∀ e ∈ ds, 0 < e.quantity

theorem save_allPosQty (s : LedgerState) (d : StockTransactionDetail) (s' : LedgerState)
    (hok : StockTransactionDetail.save s d = .ok s') (h : allPosQty s.details) :
    allPosQty s'.details := by
  intro e he
  rcases save_ok_details_mem s d s' hok e he with h1 | hmem
  · rw [h1]
    exact save_pos_qty s d s' hok
  · exact h e hmem

theorem applyLines_allPosQty (tx : StockTransaction) (lines : List LineInput) :
    ∀ s basePk s', applyLines s tx basePk lines = .ok s' →
      allPosQty s.details → allPosQty s'.details := by
  induction lines with
  | nil =>
      intro s basePk s' hok h
      simp only [applyLines, Except.ok.injEq] at hok
      exact hok ▸ h
  | cons l ls ih =>
      intro s basePk s' hok h
      simp only [applyLines] at hok
      cases hsave : StockTransactionDetail.save s ⟨basePk, tx, l.product, l.quantity⟩ with
      | ok s1 =>
          rw [hsave] at hok
          exact ih s1 (basePk + 1) s' hok (save_allPosQty s _ s1 hsave h)
      | error e =>
          rw [hsave] at hok
          exact absurd hok (by simp)

theorem stepOp_allPosQty (s : LedgerState) (op : LedgerOp) (h : allPosQty s.details) :
    allPosQty (stepOp s op).details := by
  cases op with
  | applyLine d =>
      show allPosQty (committed s (StockTransactionDetail.save s d)).details
      cases hsave : StockTransactionDetail.save s d with
      | ok s1 => exact save_allPosQty s d s1 hsave h
      | error e => exact h
  | removeLine k =>
      show allPosQty (match s.details.find? (fun e : StockTransactionDetail => e.pk == k) with
        | some d0 => StockTransactionDetail.delete s d0
        | none => s).details
      cases hfind : s.details.find? (fun e => e.pk == k) with
      | some d0 =>
          intro e he
          rw [delete_details] at he
          exact h e (List.mem_of_mem_filter he)
      | none => exact h
  | createTx tx basePk lines =>
      show allPosQty (committed s (StockTransactionSerializer.create s tx basePk lines)).details
      cases hc : StockTransactionSerializer.create s tx basePk lines with
      | error e => exact h
      | ok s1 =>
          unfold StockTransactionSerializer.create at hc
          split at hc
          · exact absurd hc (by simp)
          · exact applyLines_allPosQty tx lines _ basePk s1 hc h

theorem runOps_allPosQty (s : LedgerState) (ops : List LedgerOp)
    (h : allPosQty s.details) : allPosQty (runOps s ops).details := by
  induction ops generalizing s with
  | nil => exact h
  | cons op ops ih => exact ih (stepOp s op) (stepOp_allPosQty s op h)

/-- At most one stored detail line per (transaction, product) pair: any two
stored rows agreeing on both foreign keys are the same row. -/
def atMostOnePerPair (ds : List StockTransactionDetail) : Prop :=
  ∀ a ∈ ds, ∀ b ∈ ds, a.transaction.pk = b.transaction.pk →
    a.product.pk = b.product.pk → a.pk = b.pk

theorem save_atMostOnePerPair (s : LedgerState) (d : StockTransactionDetail)
    (s' : LedgerState) (hok : StockTransactionDetail.save s d = .ok s')
    (h : atMostOnePerPair s.details) : atMostOnePerPair s'.details := by
  have hu := (violatesUnique_false_iff s d).mp (save_clean s d s' hok)
  intro a ha b hb htx hprod
  rcases save_ok_details_mem s d s' hok a ha with ha1 | ha1 <;>
    rcases save_ok_details_mem s d s' hok b hb with hb1 | hb1
  · rw [ha1, hb1]
  · rw [ha1]
    rw [ha1] at htx hprod
    exact (hu b hb1 htx.symm hprod.symm).symm
  · rw [hb1]
    rw [hb1] at htx hprod
    exact hu a ha1 htx hprod
  · exact h a ha1 b hb1 htx hprod

theorem applyLines_atMostOnePerPair (tx : StockTransaction) (lines : List LineInput) :
    ∀ s basePk s', applyLines s tx basePk lines = .ok s' →
      atMostOnePerPair s.details → atMostOnePerPair s'.details := by
  induction lines with
  | nil =>
      intro s basePk s' hok h
      simp only [applyLines, Except.ok.injEq] at hok
      exact hok ▸ h
  | cons l ls ih =>
      intro s basePk s' hok h
      simp only [applyLines] at hok
      cases hsave : StockTransactionDetail.save s ⟨basePk, tx, l.product, l.quantity⟩ with
      | ok s1 =>
          rw [hsave] at hok
          exact ih s1 (basePk + 1) s' hok (save_atMostOnePerPair s _ s1 hsave h)
      | error e =>
          rw [hsave] at hok
          exact absurd hok (by simp)

theorem stepOp_atMostOnePerPair (s : LedgerState) (op : LedgerOp)
    (h : atMostOnePerPair s.details) : atMostOnePerPair (stepOp s op).details := by
  cases op with
  | applyLine d =>
      show atMostOnePerPair (committed s (StockTransactionDetail.save s d)).details
      cases hsave : StockTransactionDetail.save s d with
      | ok s1 => exact save_atMostOnePerPair s d s1 hsave h
      | error e => exact h
  | removeLine k =>
      show atMostOnePerPair
        (match s.details.find? (fun e : StockTransactionDetail => e.pk == k) with
        | some d0 => StockTransactionDetail.delete s d0
        | none => s).details
      cases hfind : s.details.find? (fun e : StockTransactionDetail => e.pk == k) with
      | some d0 =>
          intro a ha b hb htx hprod
          rw [delete_details] at ha hb
          exact h a (List.mem_of_mem_filter ha) b (List.mem_of_mem_filter hb) htx hprod
      | none => exact h
  | createTx tx basePk lines =>
      show atMostOnePerPair
        (committed s (StockTransactionSerializer.create s tx basePk lines)).details
      cases hc : StockTransactionSerializer.create s tx basePk lines with
      | error e => exact h
      | ok s1 =>
          unfold StockTransactionSerializer.create at hc
          split at hc
          · exact absurd hc (by simp)
          · exact applyLines_atMostOnePerPair tx lines _ basePk s1 hc h

theorem runOps_atMostOnePerPair (s : LedgerState) (ops : List LedgerOp)
    (h : atMostOnePerPair s.details) : atMostOnePerPair (runOps s ops).details := by
  induction ops generalizing s with
  | nil => exact h
  | cons op ops ih => exact ih (stepOp s op) (stepOp_atMostOnePerPair s op h)

/-! ## Characterization of a successful `StockTransactionSerializer.create` -/

theorem applyLines_ok (tx : StockTransaction) (lines : List LineInput) :
    ∀ s basePk s', (∀ e ∈ s.details, e.pk < basePk) →
      applyLines s tx basePk lines = .ok s' →
      s'.details = s.details ++ linesToDetails tx basePk lines ∧ s'.txs = s.txs := by
  induction lines with
  | nil =>
      intro s basePk s' hb hok
      simp only [applyLines, Except.ok.injEq] at hok
      subst hok
      simp [linesToDetails]
  | cons l ls ih =>
      intro s basePk s' hb hok
      simp only [applyLines] at hok
      cases hsave : StockTransactionDetail.save s ⟨basePk, tx, l.product, l.quantity⟩ with
      | error e =>
          rw [hsave] at hok
          exact absurd hok (by simp)
      | ok s1 =>
          rw [hsave] at hok
          have hfresh : findOld s ⟨basePk, tx, l.product, l.quantity⟩ = none := by
            refine (findOld_none_iff _ _).mpr ?_
            intro e he
            have := hb e he
            show e.pk ≠ basePk
            omega
          obtain ⟨hdet1, htxs1, -, -⟩ := save_ok_insert s _ s1 hfresh hsave
          have hb1 : ∀ e ∈ s1.details, e.pk < basePk + 1 := by
            intro e he
            rw [hdet1] at he
            rcases List.mem_append.mp he with hh | hh
            · exact Nat.lt_succ_of_lt (hb e hh)
            · rw [List.mem_singleton.mp hh]
              show basePk < basePk + 1
              omega
          obtain ⟨hdet2, htxs2⟩ := ih s1 (basePk + 1) s' hb1 hok
          refine ⟨?_, htxs2.trans htxs1⟩
          rw [hdet2, hdet1, linesToDetails]
          simp

/-- A successful Create-transaction commits exactly: the header appended,
and one detail row per line-input, in the order supplied. -/
theorem create_ok (s : LedgerState) (tx : StockTransaction) (basePk : Nat)
    (lines : List LineInput) (s' : LedgerState)
    (hb : ∀ e ∈ s.details, e.pk < basePk)
    (hok : StockTransactionSerializer.create s tx basePk lines = .ok s') :
    s'.txs = s.txs ++ [tx] ∧
      s'.details = s.details ++ linesToDetails tx basePk lines := by
  unfold StockTransactionSerializer.create at hok
  split at hok
  · exact absurd hok (by simp)
  · obtain ⟨hdet, htxs⟩ :=
      applyLines_ok tx lines { s with txs := s.txs ++ [tx] } basePk s' hb hok
    exact ⟨htxs, hdet⟩

/-! ## Error-path facts -/

theorem save_of_invalid (s : LedgerState) (d : StockTransactionDetail)
    (hq : d.quantity ≤ 0) :
    StockTransactionDetail.save s d = .error .invalidQuantity := by
  unfold StockTransactionDetail.save
  rw [if_pos hq]

theorem save_of_clean (s : LedgerState) (d : StockTransactionDetail)
    (hq : ¬ d.quantity ≤ 0) (hcln : violatesUnique s d = false) :
    StockTransactionDetail.save s d = applyNew (revertIfStored s d) d := by
  unfold StockTransactionDetail.save
  rw [if_neg hq, hcln]
  simp

theorem save_of_duplicate (s : LedgerState) (d : StockTransactionDetail)
    (hq : ¬ d.quantity ≤ 0) (hdup : violatesUnique s d = true) :
    StockTransactionDetail.save s d
      = .error (.duplicateLineProduct d.transaction.pk d.product.pk) := by
  unfold StockTransactionDetail.save
  rw [if_neg hq, hdup]
  simp

theorem stepOp_applyLine_error (s : LedgerState) (d : StockTransactionDetail)
    (e : LedgerError) (h : StockTransactionDetail.save s d = .error e) :
    stepOp s (.applyLine d) = s := by
  show committed s (StockTransactionDetail.save s d) = s
  rw [h]
  rfl

theorem stepOp_createTx_error (s : LedgerState) (tx : StockTransaction) (basePk : Nat)
    (lines : List LineInput) (e : LedgerError)
    (h : StockTransactionSerializer.create s tx basePk lines = .error e) :
    stepOp s (.createTx tx basePk lines) = s := by
  show committed s (StockTransactionSerializer.create s tx basePk lines) = s
  rw [h]
  rfl

/-! ## Concrete fixtures used by witnesses and counterexamples -/

def prodA : Product := ⟨0, "P-100"⟩
def prodB : Product := ⟨1, "P-200"⟩
def prodC : Product := ⟨2, "P-300"⟩
def prodD : Product := ⟨3, "P-400"⟩
def txIn1 : StockTransaction := ⟨1, .IN⟩
def txOut1 : StockTransaction := ⟨2, .OUT⟩
def txIn2 : StockTransaction := ⟨4, .IN⟩
def txOut2 : StockTransaction := ⟨5, .OUT⟩

/-- Store holding one product `P-100` with stock 5 from a single IN line. -/
def stock5State : LedgerState :=
  runOps initState [.createTx txIn1 10 [⟨prodA, 5⟩]]

/-- Store holding `P-100` with stock 2: an IN line of 5 and an OUT line of 3. -/
def stock2State : LedgerState :=
  runOps initState [.createTx txIn1 10 [⟨prodA, 5⟩], .createTx txOut1 20 [⟨prodA, 3⟩]]

/-- Store holding `P-100` with stock 10 from a single IN line of quantity 10. -/
def stock10State : LedgerState :=
  runOps initState [.createTx txIn1 10 [⟨prodA, 10⟩]]

/-- Store holding four products with stock 5 each, from one IN transaction. -/
def fourProductState : LedgerState :=
  runOps initState
    [.createTx txIn1 10 [⟨prodA, 5⟩, ⟨prodB, 5⟩, ⟨prodC, 5⟩, ⟨prodD, 5⟩]]

/-! ## Claims -/

/-- C1 (counterexample to the claim as stated): the claim asserts that after
any sequence of Apply-line, Replace-line and Remove-line operations every
product's `current_stock` is non-negative; but applying an IN line of
quantity 1, consuming it with an OUT line of quantity 1, and then removing
the IN line leaves `P-100` at stock −1, because
`StockTransactionDetail.delete` reverses unconditionally. -/
theorem C1_nonnegativity_counterexample :
    (runOps initState
      [.createTx txIn1 10 [⟨prodA, 1⟩],
       .createTx txOut1 20 [⟨prodA, 1⟩],
       .removeLine 10]).current_stock prodA.pk < 0 := by
  decide

/-- C1 (amended): for every product P, at every quiescent point reached from
the empty store by any sequence of Apply-line (`StockTransactionDetail.save`),
Replace-line (save on a stored pk), Remove-line
(`StockTransactionDetail.delete`) and Create-transaction operations,
`P.current_stock` equals the sum of IN quantities minus the sum of OUT
quantities over the persisted detail lines referencing P.  The
non-negativity half of the original claim is dropped: it fails, see the
counterexample. -/
theorem C1_current_stock_equals_ledger_sum (ops : List LedgerOp) (p : Nat) :
    (runOps initState ops).current_stock p
      = netSum (runOps initState ops).details p :=
  (runOps_inv initState ops initState_inv).2 p

/-- C9: Create-transaction with an empty list of line-inputs fails with
`EmptyTransaction` and persists nothing: the store is returned unchanged, so
no header is created and no product's stock moves. -/
theorem C9_empty_transaction_rejection (s : LedgerState) (tx : StockTransaction)
    (basePk : Nat) :
    StockTransactionSerializer.create s tx basePk [] = .error .emptyTransaction
      ∧ stepOp s (.createTx tx basePk []) = s := by
  constructor
  · rfl
  · show committed s (StockTransactionSerializer.create s tx basePk []) = s
    rfl

/-- C10: `StockTransactionDetail.delete` applies the reversal
unconditionally — deleting an IN line of quantity q always subtracts q from
the product's stock, whatever its current value — and a reachable sequence
(apply an IN line, consume the stock with an OUT line, remove the IN line)
drives `P-200`'s `current_stock` negative. -/
theorem C10_delete_unconditional_reversal :
    (∀ (s : LedgerState) (d : StockTransactionDetail),
      d.transaction.transaction_type = .IN →
        (StockTransactionDetail.delete s d).current_stock d.product.pk
          = s.current_stock d.product.pk - d.quantity)
    ∧ (runOps initState
        [.createTx txIn2 40 [⟨prodB, 3⟩],
         .createTx txOut2 50 [⟨prodB, 3⟩],
         .removeLine 40]).current_stock prodB.pk < 0 := by
  constructor
  · intro s d hIN
    rw [delete_current_stock, if_pos rfl,
      show revertDelta d = -d.quantity by unfold revertDelta; rw [hIN]]
    omega
  · decide

/-- C10 witness: deleting an IN line of quantity 3 from the empty store —
stock 0, strictly below the line's quantity — succeeds and leaves stock −3. -/
theorem C10_delete_unconditional_reversal_witness :
    (StockTransactionDetail.delete initState ⟨60, txIn1, prodA, 3⟩).current_stock 0 = -3 :=
  (C10_delete_unconditional_reversal.1 initState ⟨60, txIn1, prodA, 3⟩ rfl).trans (by decide)

/-- C2: Create-transaction is atomic and ordered.  With fresh pks for the
new rows: if any line fails, the committed store is unchanged — no header,
no detail line, no stock change; if all lines succeed, the commit is exactly
the header appended and one detail row per line-input, in the order the
lines were supplied. -/
theorem C2_create_transaction_atomic (s : LedgerState) (tx : StockTransaction)
    (basePk : Nat) (lines : List LineInput)
    (hb : ∀ e ∈ s.details, e.pk < basePk) :
    (∀ er, StockTransactionSerializer.create s tx basePk lines = .error er →
        stepOp s (.createTx tx basePk lines) = s)
    ∧ (∀ s', StockTransactionSerializer.create s tx basePk lines = .ok s' →
        s'.txs = s.txs ++ [tx]
          ∧ s'.details = s.details ++ linesToDetails tx basePk lines) := by
  constructor
  · intro er herr
    exact stepOp_createTx_error s tx basePk lines er herr
  · intro s' hok
    exact create_ok s tx basePk lines s' hb hok

/-- C2 witness: an OUT submission with three satisfiable lines and a fourth
line that exceeds `P-400`'s stock (5 < 6) commits nothing: the store is
unchanged, all four stocks included. -/
theorem C2_create_transaction_atomic_witness :
    stepOp fourProductState
        (.createTx txOut1 20 [⟨prodA, 1⟩, ⟨prodB, 1⟩, ⟨prodC, 1⟩, ⟨prodD, 6⟩])
      = fourProductState :=
  (C2_create_transaction_atomic fourProductState txOut1 20
      [⟨prodA, 1⟩, ⟨prodB, 1⟩, ⟨prodC, 1⟩, ⟨prodD, 6⟩] (by decide)).1
    (.insufficientStock "P-400" 5 6) rfl

/-- C3: an Apply-line whose owning transaction has type OUT fails with
`InsufficientStock` exactly when the product's stock is below the quantity;
the error carries the part number, the available stock and the required
quantity, and the failed operation leaves the store unchanged.  When the
stock suffices, the save succeeds and decreases the product's stock by
exactly the quantity. -/
theorem C3_out_insufficient_stock (s : LedgerState) (d : StockTransactionDetail)
    (hOUT : d.transaction.transaction_type = .OUT)
    (hq : 0 < d.quantity)
    (hfresh : findOld s d = none)
    (hcln : violatesUnique s d = false) :
    (s.current_stock d.product.pk < d.quantity →
      StockTransactionDetail.save s d = .error (.insufficientStock d.product.part_no
        (s.current_stock d.product.pk) d.quantity)
      ∧ stepOp s (.applyLine d) = s)
    ∧ (d.quantity ≤ s.current_stock d.product.pk →
      ∃ s', StockTransactionDetail.save s d = .ok s'
        ∧ s'.current_stock d.product.pk = s.current_stock d.product.pk - d.quantity) := by
  have hsave := save_of_clean s d (by omega) hcln
  rw [revertIfStored_of_none s d hfresh] at hsave
  constructor
  · intro hlt
    have herr := hsave.trans (applyNew_of_OUT_err s d hOUT hlt)
    exact ⟨herr, stepOp_applyLine_error s d _ herr⟩
  · intro hge
    have hok := hsave.trans (applyNew_of_OUT_ok s d hOUT (by omega))
    refine ⟨mkApplied s d, hok, ?_⟩
    rw [show (mkApplied s d).current_stock d.product.pk
        = (adjustStock s d.product.pk (applyDelta d)).current_stock d.product.pk from rfl,
      adjustStock_current_stock, if_pos rfl,
      show applyDelta d = -d.quantity by unfold applyDelta; rw [hOUT]]
    omega

/-- C3 witness: the spec scenario — `P-100` at stock 5, an OUT line of
quantity 6 — fails with the structured insufficient-stock error reporting
part number `P-100`, available 5, required 6, and the store is unchanged. -/
theorem C3_out_insufficient_stock_witness :
    StockTransactionDetail.save stock5State ⟨20, txOut1, prodA, 6⟩
      = .error (.insufficientStock "P-100" 5 6)
    ∧ stepOp stock5State (.applyLine ⟨20, txOut1, prodA, 6⟩) = stock5State :=
  (C3_out_insufficient_stock stock5State ⟨20, txOut1, prodA, 6⟩ rfl (by decide)
    (by decide) (by decide)).1 (by decide)

/-- C4: a successful save of an already-stored pk (Replace-line) first
reverses the stored old row's effect on the old row's product, then applies
the new line's delta to the (possibly different) new product: the committed
stock column is the old stock plus the reversal at the old product plus the
new delta at the new product. -/
theorem C4_replace_reverses_then_applies (s : LedgerState)
    (d old : StockTransactionDetail) (s' : LedgerState)
    (hfind : findOld s d = some old)
    (hok : StockTransactionDetail.save s d = .ok s') (p : Nat) :
    s'.current_stock p
      = s.current_stock p + (if p = old.product.pk then revertDelta old else 0)
          + (if p = d.product.pk then applyDelta d else 0) :=
  (save_ok_replace s d old s' hfind hok).2.2.2 p

/-- C4 witness: the spec scenario — `P-100` at stock 10 from one IN line of
quantity 10; editing that line's quantity to 4 commits stock 4. -/
theorem C4_replace_reverses_then_applies_witness :
    (committed stock10State
        (StockTransactionDetail.save stock10State ⟨10, txIn1, prodA, 4⟩)).current_stock 0
      = 4 := by
  have hok : StockTransactionDetail.save stock10State ⟨10, txIn1, prodA, 4⟩
      = .ok (committed stock10State
          (StockTransactionDetail.save stock10State ⟨10, txIn1, prodA, 4⟩)) := rfl
  have h := C4_replace_reverses_then_applies stock10State ⟨10, txIn1, prodA, 4⟩
    ⟨10, txIn1, prodA, 10⟩ _ (by decide) hok 0
  rw [h]
  decide

/-- C5: Apply-line of a fresh detail line followed by Remove-line of the
same line restores the referenced product's `current_stock` to exactly its
value before the Apply-line, whatever the transaction type. -/
theorem C5_apply_then_remove_restores (s : LedgerState) (d : StockTransactionDetail)
    (s' : LedgerState) (hfresh : findOld s d = none)
    (hok : StockTransactionDetail.save s d = .ok s') :
    (StockTransactionDetail.delete s' d).current_stock d.product.pk
      = s.current_stock d.product.pk := by
  obtain ⟨-, -, -, hstock⟩ := save_ok_insert s d s' hfresh hok
  rw [delete_current_stock, hstock, if_pos rfl, if_pos rfl,
    revertDelta_eq_neg_applyDelta]
  omega

/-- C5 witness: an IN line of 7 applied to the empty store then removed
leaves stock 0, and an OUT line of 2 applied at stock 5 then removed leaves
stock 5. -/
theorem C5_apply_then_remove_restores_witness :
    (StockTransactionDetail.delete
        (committed initState (StockTransactionDetail.save initState ⟨70, txIn1, prodA, 7⟩))
        ⟨70, txIn1, prodA, 7⟩).current_stock 0 = 0
    ∧ (StockTransactionDetail.delete
        (committed stock5State
          (StockTransactionDetail.save stock5State ⟨20, txOut1, prodA, 2⟩))
        ⟨20, txOut1, prodA, 2⟩).current_stock 0 = 5 := by
  constructor
  · exact (C5_apply_then_remove_restores initState ⟨70, txIn1, prodA, 7⟩ _
      (by decide) rfl).trans (by decide)
  · exact (C5_apply_then_remove_restores stock5State ⟨20, txOut1, prodA, 2⟩ _
      (by decide) rfl).trans (by decide)

/-- C6: Replace-line is atomic: when saving an already-stored pk fails —
for any error, insufficient stock included — the committed store is the
unchanged input store, so the step-1 reversal of the old line is not
committed and neither stock column nor the stored row moves. -/
theorem C6_replace_failure_atomic (s : LedgerState) (d old : StockTransactionDetail)
    (er : LedgerError) (_hfind : findOld s d = some old)
    (herr : StockTransactionDetail.save s d = .error er) :
    stepOp s (.applyLine d) = s :=
  stepOp_applyLine_error s d er herr

/-- C6 witness: `P-100` at stock 2 with a stored OUT line of 3; editing that
line's quantity to 100 fails (available after reversal is 5 < 100) and the
store — stock and stored line — is exactly the one before the edit. -/
theorem C6_replace_failure_atomic_witness :
    stepOp stock2State (.applyLine ⟨20, txOut1, prodA, 100⟩) = stock2State
    ∧ StockTransactionDetail.save stock2State ⟨20, txOut1, prodA, 100⟩
        = .error (.insufficientStock "P-100" 5 100) :=
  ⟨C6_replace_failure_atomic stock2State ⟨20, txOut1, prodA, 100⟩ ⟨20, txOut1, prodA, 3⟩
      (.insufficientStock "P-100" 5 100) (by decide) rfl, rfl⟩

theorem upsertDetail_fresh (ds : List StockTransactionDetail) (d : StockTransactionDetail)
    (h : (ds.any fun e => e.pk == d.pk) = false) : upsertDetail ds d = ds ++ [d] := by
  unfold upsertDetail
  rw [h]
  simp

theorem applyLines_cons_ok (s s1 : LedgerState) (tx : StockTransaction) (basePk : Nat)
    (l : LineInput) (ls : List LineInput)
    (h : StockTransactionDetail.save s ⟨basePk, tx, l.product, l.quantity⟩ = .ok s1) :
    applyLines s tx basePk (l :: ls) = applyLines s1 tx (basePk + 1) ls := by
  simp only [applyLines]
  rw [h]

theorem applyLines_cons_error (s : LedgerState) (tx : StockTransaction) (basePk : Nat)
    (l : LineInput) (ls : List LineInput) (e : LedgerError)
    (h : StockTransactionDetail.save s ⟨basePk, tx, l.product, l.quantity⟩ = .error e) :
    applyLines s tx basePk (l :: ls) = .error e := by
  simp only [applyLines]
  rw [h]

/-- C7: at most one detail line per (transaction, product) pair is an
invariant of every operation sequence; and a submission carrying two
line-inputs for the same product (a fresh IN header, fresh pks, positive
quantities) fails with `DuplicateLineProduct` — the second line's
`validate_unique` sees the first — and the committed store is unchanged:
no header, no lines, no stock change. -/
theorem C7_unique_pair_and_duplicate_rejection :
    (∀ (s : LedgerState) (ops : List LedgerOp), atMostOnePerPair s.details →
      atMostOnePerPair (runOps s ops).details)
    ∧ (∀ (s : LedgerState) (tx : StockTransaction) (basePk : Nat) (l1 l2 : LineInput),
      tx.transaction_type = .IN → 0 < l1.quantity → 0 < l2.quantity →
      l1.product.pk = l2.product.pk →
      (∀ e ∈ s.details, e.pk ≠ basePk) →
      (∀ e ∈ s.details, e.transaction.pk ≠ tx.pk) →
      StockTransactionSerializer.create s tx basePk [l1, l2]
        = .error (.duplicateLineProduct tx.pk l2.product.pk)
      ∧ stepOp s (.createTx tx basePk [l1, l2]) = s) := by
  constructor
  · exact runOps_atMostOnePerPair
  · intro s tx basePk l1 l2 hIN hq1 hq2 hdup hpk htx
    have hcln1 : violatesUnique { s with txs := s.txs ++ [tx] }
        ⟨basePk, tx, l1.product, l1.quantity⟩ = false := by
      refine (violatesUnique_false_iff _ _).mpr ?_
      intro e he het _
      exact absurd het (htx e he)
    have hfresh1 : findOld { s with txs := s.txs ++ [tx] }
        ⟨basePk, tx, l1.product, l1.quantity⟩ = none := by
      refine (findOld_none_iff _ _).mpr ?_
      intro e he
      exact hpk e he
    have hsave1 : StockTransactionDetail.save { s with txs := s.txs ++ [tx] }
        ⟨basePk, tx, l1.product, l1.quantity⟩
        = .ok (mkApplied { s with txs := s.txs ++ [tx] }
            ⟨basePk, tx, l1.product, l1.quantity⟩) := by
      rw [save_of_clean _ _ (by show ¬ l1.quantity ≤ 0; omega) hcln1,
        revertIfStored_of_none _ _ hfresh1]
      exact applyNew_of_IN _ _ hIN
    have hany1 : (s.details.any fun e =>
        e.pk == (⟨basePk, tx, l1.product, l1.quantity⟩ : StockTransactionDetail).pk)
        = false := by
      rw [← Bool.not_eq_true, List.any_eq_true]
      push_neg
      intro e he
      simpa using hpk e he
    have hd1det : (mkApplied { s with txs := s.txs ++ [tx] }
        ⟨basePk, tx, l1.product, l1.quantity⟩).details
        = s.details ++ [⟨basePk, tx, l1.product, l1.quantity⟩] := by
      show upsertDetail s.details _ = _
      exact upsertDetail_fresh _ _ hany1
    have hd1mem : (⟨basePk, tx, l1.product, l1.quantity⟩ : StockTransactionDetail)
        ∈ (mkApplied { s with txs := s.txs ++ [tx] }
            ⟨basePk, tx, l1.product, l1.quantity⟩).details := by
      rw [hd1det]
      simp
    have hdup2 : violatesUnique (mkApplied { s with txs := s.txs ++ [tx] }
        ⟨basePk, tx, l1.product, l1.quantity⟩)
        ⟨basePk + 1, tx, l2.product, l2.quantity⟩ = true := by
      rw [violatesUnique, List.any_eq_true]
      refine ⟨⟨basePk, tx, l1.product, l1.quantity⟩, hd1mem, ?_⟩
      show (basePk != basePk + 1 && tx.pk == tx.pk
        && l1.product.pk == l2.product.pk) = true
      simp [bne_iff_ne, hdup]
    have hsave2 : StockTransactionDetail.save (mkApplied { s with txs := s.txs ++ [tx] }
        ⟨basePk, tx, l1.product, l1.quantity⟩)
        ⟨basePk + 1, tx, l2.product, l2.quantity⟩
        = .error (.duplicateLineProduct tx.pk l2.product.pk) :=
      save_of_duplicate _ _ (by show ¬ l2.quantity ≤ 0; omega) hdup2
    have hcreate : StockTransactionSerializer.create s tx basePk [l1, l2]
        = .error (.duplicateLineProduct tx.pk l2.product.pk) := by
      show applyLines { s with txs := s.txs ++ [tx] } tx basePk [l1, l2] = _
      rw [applyLines_cons_ok _ _ tx basePk l1 [l2] hsave1,
        applyLines_cons_error _ tx (basePk + 1) l2 [] _ hsave2]
    exact ⟨hcreate, stepOp_createTx_error s tx basePk [l1, l2] _ hcreate⟩

/-- C7 witness: submitting one IN transaction with two lines for `P-100`
against the empty store fails with `DuplicateLineProduct` and commits
nothing. -/
theorem C7_unique_pair_and_duplicate_rejection_witness :
    StockTransactionSerializer.create initState txIn1 10 [⟨prodA, 5⟩, ⟨prodA, 3⟩]
      = .error (.duplicateLineProduct 1 0)
    ∧ stepOp initState (.createTx txIn1 10 [⟨prodA, 5⟩, ⟨prodA, 3⟩]) = initState :=
  C7_unique_pair_and_duplicate_rejection.2 initState txIn1 10 ⟨prodA, 5⟩ ⟨prodA, 3⟩
    rfl (by decide) (by decide) rfl (by decide) (by decide)

/-- C8: a save with quantity ≤ 0 fails with `InvalidQuantity` before any
stock mutation — the committed store is unchanged — and consequently, from
any store whose detail lines all have positive quantity, every operation
sequence preserves that every persisted detail line has quantity strictly
greater than zero. -/
theorem C8_invalid_quantity_rejection :
    (∀ (s : LedgerState) (d : StockTransactionDetail), d.quantity ≤ 0 →
      StockTransactionDetail.save s d = .error .invalidQuantity
        ∧ stepOp s (.applyLine d) = s)
    ∧ (∀ (s : LedgerState) (ops : List LedgerOp), allPosQty s.details →
      allPosQty (runOps s ops).details) := by
  constructor
  · intro s d hq
    have herr := save_of_invalid s d hq
    exact ⟨herr, stepOp_applyLine_error s d _ herr⟩
  · exact runOps_allPosQty

/-- C8 witness: saving a zero-quantity line against the empty store fails
with `InvalidQuantity` and the store is unchanged. -/
theorem C8_invalid_quantity_rejection_witness :
    StockTransactionDetail.save initState ⟨5, txIn1, prodA, 0⟩
      = .error .invalidQuantity
    ∧ stepOp initState (.applyLine ⟨5, txIn1, prodA, 0⟩) = initState :=
  C8_invalid_quantity_rejection.1 initState ⟨5, txIn1, prodA, 0⟩ (by decide)
